import Mathlib

/-!
Verification development for the ECS core of the `game-demo-fight` repository.

The TypeScript source is shallowly embedded: every class whose behaviour the
properties below talk about becomes a Lean structure, every mutating method a
pure function from the old state to the new state (methods that also return a
value become functions into a pair).  JavaScript `number` arithmetic on the
health / lifetime / position paths only ever uses `+`, `-`, `min`, `max` and
comparisons, so it is modelled exactly over `ℚ`; the velocity path divides by
`Math.sqrt` and is therefore modelled over `ℝ`.  `Phaser.Math.Distance.Between`
(a Euclidean `sqrt`) only ever occurs in comparisons against a positive radius,
so collision tests are embedded squared over `ℚ` with a bridging lemma
(`distLt_iff_sqrt_lt`, `distLe_iff_sqrt_le`) showing the squared test equals
the source's `sqrt dist < r` / `≤ r` test.
-/

namespace Game

/-! ### HealthComponent (src/components, `HealthComponent`)

Fields and methods follow `HealthComponent` verbatim: `takeDamage` returns the
boolean the source returns together with the successor state. -/

structure HealthComponent where
  currentHealth : ℚ
  maxHealth : ℚ
  isInvincible : Bool
  invincibleTime : ℚ
  isDead : Bool
deriving DecidableEq, Repr

/-- `new HealthComponent(maxHealth)`: full health, not invincible, not dead. -/
def HealthComponent.mkHealth (maxHealth : ℚ) : HealthComponent :=
  { currentHealth := maxHealth, maxHealth := maxHealth, isInvincible := false,
    invincibleTime := 0, isDead := false }

/-- `takeDamage(amount, ignoreInvincible)`: the invincibility gate (skipped when
`ignoreInvincible`), then the unconditional dead-target gate, then
`currentHealth = Math.max(0, currentHealth - amount)` and the death latch. -/
def HealthComponent.takeDamage (h : HealthComponent) (amount : ℚ)
    (ignoreInvincible : Bool) : Bool × HealthComponent :=
  if !ignoreInvincible && (h.isInvincible || h.isDead) then (false, h)
  else if h.isDead then (false, h)
  else
    let ch := max 0 (h.currentHealth - amount)
    if ch ≤ 0 then
      (true, { h with currentHealth := ch, isDead := true })
    else
      (true, { h with currentHealth := ch })

/-- `heal(amount)`: no-op on a dead component, otherwise clamp at `maxHealth`. -/
def HealthComponent.heal (h : HealthComponent) (amount : ℚ) : HealthComponent :=
  if h.isDead then h
  else { h with currentHealth := min h.maxHealth (h.currentHealth + amount) }

/-- `setInvincible(duration)`. -/
def HealthComponent.setInvincible (h : HealthComponent) (duration : ℚ) :
    HealthComponent :=
  { h with isInvincible := true, invincibleTime := duration }

/-- `update(deltaTime)`: count the invincibility window down; clear it once the
timer falls to `≤ 0`. -/
def HealthComponent.update (h : HealthComponent) (deltaTime : ℚ) :
    HealthComponent :=
  if h.isInvincible && 0 < h.invincibleTime then
    let t := h.invincibleTime - deltaTime
    if t ≤ 0 then { h with isInvincible := false, invincibleTime := 0 }
    else { h with invincibleTime := t }
  else h

/-- `isAlive()`. -/
def HealthComponent.isAlive (h : HealthComponent) : Bool := !h.isDead

/-- One call of the `HealthComponent` public mutating interface. -/
inductive HealthOp where
  | takeDamage (amount : ℚ) (ignoreInvincible : Bool)
  | heal (amount : ℚ)
  | setInvincible (duration : ℚ)
  | update (deltaTime : ℚ)
deriving DecidableEq, Repr

def HealthComponent.applyOp (h : HealthComponent) : HealthOp → HealthComponent
  | .takeDamage amount ignoreInvincible => (h.takeDamage amount ignoreInvincible).2
  | .heal amount => h.heal amount
  | .setInvincible duration => h.setInvincible duration
  | .update deltaTime => h.update deltaTime

def HealthComponent.applyOps (h : HealthComponent) (ops : List HealthOp) :
    HealthComponent :=
  ops.foldl HealthComponent.applyOp h

/-- Basic well-formedness of a health state: bounds plus the dead flag tracking
zero health.  It holds for `mkHealth m` whenever `0 < m` and is preserved by
all four operations as long as amounts are nonnegative. -/
def HealthComponent.WellFormed (h : HealthComponent) : Prop :=
  0 ≤ h.currentHealth ∧ h.currentHealth ≤ h.maxHealth ∧
    (h.isDead = true ↔ h.currentHealth = 0)

instance (h : HealthComponent) : Decidable h.WellFormed := by
  unfold HealthComponent.WellFormed
  infer_instance

/-- Shared helper: `takeDamage` on a dead component is a report-`false` no-op,
whatever `amount` and `ignoreInvincible` are (the dead gate is checked in both
branches of the invincibility test). -/
lemma HealthComponent.takeDamage_of_dead (h : HealthComponent) (amount : ℚ)
    (ignoreInvincible : Bool) (hd : h.isDead = true) :
    h.takeDamage amount ignoreInvincible = (false, h) := by
  cases ignoreInvincible <;> simp [HealthComponent.takeDamage, hd]

/-- Shared helper: no single operation ever clears the dead flag. -/
lemma HealthComponent.applyOp_isDead (h : HealthComponent) (op : HealthOp)
    (hd : h.isDead = true) : (h.applyOp op).isDead = true := by
  cases op with
  | takeDamage amount ignoreInvincible =>
      simp only [HealthComponent.applyOp,
        h.takeDamage_of_dead amount ignoreInvincible hd]
      exact hd
  | heal amount => simp [HealthComponent.applyOp, HealthComponent.heal, hd]
  | setInvincible duration =>
      simp [HealthComponent.applyOp, HealthComponent.setInvincible, hd]
  | update deltaTime =>
      simp only [HealthComponent.applyOp, HealthComponent.update]
      split
      · split <;> simp [hd]
      · exact hd

/-- Shared helper: the dead flag is monotone along any call sequence. -/
lemma HealthComponent.applyOps_isDead (ops : List HealthOp) :
    ∀ h : HealthComponent, h.isDead = true → (h.applyOps ops).isDead = true := by
  induction ops with
  | nil => intro h hd; simpa [HealthComponent.applyOps] using hd
  | cons op ops ih =>
      intro h hd
      simpa [HealthComponent.applyOps, List.foldl_cons] using
        ih (h.applyOp op) (h.applyOp_isDead op hd)

/-- C10: on a component whose `isDead` is already `true`, `takeDamage` returns
`false` and leaves the entire state unchanged, for every amount and even with
`ignoreInvincible = true`: the dead gate is checked unconditionally. -/
theorem claim_C10_dead_takeDamage_noop (h : HealthComponent) (amount : ℚ)
    (ignoreInvincible : Bool) (hd : h.isDead = true) :
    h.takeDamage amount ignoreInvincible = (false, h) :=
  h.takeDamage_of_dead amount ignoreInvincible hd

/-- Witness for C10 at a concrete dead component, with `ignoreInvincible`. -/
theorem claim_C10_witness :
    ({ currentHealth := 0, maxHealth := 100, isInvincible := false,
       invincibleTime := 0, isDead := true } : HealthComponent).isDead = true ∧
    ({ currentHealth := 0, maxHealth := 100, isInvincible := false,
       invincibleTime := 0, isDead := true } : HealthComponent).takeDamage 5 true =
      (false, { currentHealth := 0, maxHealth := 100, isInvincible := false,
                invincibleTime := 0, isDead := true }) :=
  ⟨rfl, claim_C10_dead_takeDamage_noop _ 5 true rfl⟩

/-- C4 counterexample: the claim quantifies over every damage amount, but a
negative amount drives `currentHealth` above `maxHealth` (the source clamps
only from below): `takeDamage(-1)` on a fresh `HealthComponent(100)` yields
`currentHealth = 101 > 100 = maxHealth`. -/
theorem claim_C4_counterexample :
    ¬ (((HealthComponent.mkHealth 100).takeDamage (-1) false).2.currentHealth ≤
        ((HealthComponent.mkHealth 100).takeDamage (-1) false).2.maxHealth) := by
  norm_num [HealthComponent.takeDamage, HealthComponent.mkHealth, max_def]

/-- C4 (amended): restricted to nonnegative damage amounts and well-formed
states, `takeDamage` keeps `0 ≤ currentHealth ≤ maxHealth` and keeps
`isDead ↔ currentHealth = 0`; and once the post-state is dead, no sequence of
`takeDamage`/`heal`/`setInvincible`/`update` calls ever clears `isDead`. -/
theorem claim_C4_health_invariant (h : HealthComponent) (amount : ℚ)
    (ignoreInvincible : Bool) (ops : List HealthOp)
    (hwf : h.WellFormed) (hamt : 0 ≤ amount) :
    (h.takeDamage amount ignoreInvincible).2.WellFormed ∧
      ((h.takeDamage amount ignoreInvincible).2.isDead = true →
        ((h.takeDamage amount ignoreInvincible).2.applyOps ops).isDead = true) := by
  refine ⟨?_, fun hd => HealthComponent.applyOps_isDead ops _ hd⟩
  obtain ⟨h0, h1, h2⟩ := hwf
  have hch0 : (0 : ℚ) ≤ max 0 (h.currentHealth - amount) := le_max_left 0 _
  have hchmax : max 0 (h.currentHealth - amount) ≤ h.maxHealth := by
    refine max_le (le_trans h0 h1) (le_trans ?_ h1)
    linarith
  simp only [HealthComponent.takeDamage]
  split_ifs with hg1 hg2 hle
  · exact ⟨h0, h1, h2⟩
  · exact ⟨h0, h1, h2⟩
  · have hch : max 0 (h.currentHealth - amount) = 0 := le_antisymm hle hch0
    exact ⟨by simp [HealthComponent.WellFormed, hch],
      by simp [HealthComponent.WellFormed, hch]; exact le_trans h0 h1,
      by simp [HealthComponent.WellFormed, hch]⟩
  · push_neg at hle
    have hnotdead : h.isDead = false := by
      cases hv : h.isDead
      · rfl
      · exact absurd hv hg2
    refine ⟨hch0, hchmax, ?_⟩
    constructor
    · intro hx
      exact absurd hx (by simp [hnotdead])
    · intro hx
      exact absurd hx (ne_of_gt hle)

/-- Witness for C4 (amended) at a fresh `HealthComponent(100)` and damage 30. -/
theorem claim_C4_witness :
    (HealthComponent.mkHealth 100).WellFormed ∧ (0 : ℚ) ≤ 30 ∧
      (((HealthComponent.mkHealth 100).takeDamage 30 false).2.WellFormed ∧
        (((HealthComponent.mkHealth 100).takeDamage 30 false).2.isDead = true →
          (((HealthComponent.mkHealth 100).takeDamage 30 false).2.applyOps
              [HealthOp.heal 10]).isDead = true)) :=
  ⟨by decide, by norm_num,
    claim_C4_health_invariant (HealthComponent.mkHealth 100) 30 false
      [HealthOp.heal 10] (by decide) (by norm_num)⟩

/-- The state reached in Scenario A: `HealthComponent(100)`, a successful
`takeDamage(30, false)`, `setInvincible(1000)`, then the given per-frame
`update` deltas. -/
def scenarioA (dts : List ℚ) : HealthComponent :=
  dts.foldl HealthComponent.update
    ((((HealthComponent.mkHealth 100).takeDamage 30 false).2).setInvincible 1000)

/-- Shared helper: while the frame deltas are nonnegative and sum below the
remaining window, `update` just counts the timer down and changes nothing
else. -/
lemma HealthComponent.foldl_update_invincible (dts : List ℚ) :
    ∀ h : HealthComponent, h.isInvincible = true →
      (∀ d ∈ dts, 0 ≤ d) → dts.sum < h.invincibleTime →
      dts.foldl HealthComponent.update h =
        { h with invincibleTime := h.invincibleTime - dts.sum } := by
  induction dts with
  | nil =>
      intro h _ _ _
      simp
  | cons d ds ih =>
      intro h hinv hnn hsum
      have hds : (0 : ℚ) ≤ ds.sum :=
        List.sum_nonneg fun x hx => hnn x (List.mem_cons_of_mem d hx)
      have hd : (0 : ℚ) ≤ d := hnn d (List.mem_cons_self d ds)
      have hsum' : d + ds.sum < h.invincibleTime := by
        simpa [List.sum_cons] using hsum
      have hpos : 0 < h.invincibleTime := lt_of_le_of_lt (by linarith) hsum'
      have hstep : h.update d = { h with invincibleTime := h.invincibleTime - d } := by
        unfold HealthComponent.update
        rw [if_pos (by simp [hinv, hpos]), if_neg (by simp; linarith)]
      rw [List.foldl_cons, hstep,
        ih _ (by simp [hinv]) (fun x hx => hnn x (List.mem_cons_of_mem d hx))
          (by simp; linarith)]
      simp [List.sum_cons]
      ring

/-- C5: after `HealthComponent(100)` takes 30 damage and gains a 1000 ms
invincibility window, a second `takeDamage(30, false)` issued while the
nonnegative frame deltas seen so far sum to less than 1000 returns `false`
and leaves `currentHealth` at 70. -/
theorem claim_C5_invincibility_window (dts : List ℚ)
    (hnn : ∀ d ∈ dts, 0 ≤ d) (hsum : dts.sum < 1000) :
    ((scenarioA dts).takeDamage 30 false).1 = false ∧
      ((scenarioA dts).takeDamage 30 false).2.currentHealth = 70 := by
  have hbase :
      (((HealthComponent.mkHealth 100).takeDamage 30 false).2).setInvincible 1000 =
        { currentHealth := 70, maxHealth := 100, isInvincible := true,
          invincibleTime := 1000, isDead := false } := by
    norm_num [HealthComponent.takeDamage, HealthComponent.mkHealth,
      HealthComponent.setInvincible, max_def]
  have hfold : scenarioA dts =
      { currentHealth := 70, maxHealth := 100, isInvincible := true,
        invincibleTime := 1000 - dts.sum, isDead := false } := by
    unfold scenarioA
    rw [hbase, HealthComponent.foldl_update_invincible dts _ rfl hnn (by simpa using hsum)]
  rw [hfold]
  constructor <;> simp [HealthComponent.takeDamage]

/-- Witness for C5 with frame deltas 400 ms and 500 ms. -/
theorem claim_C5_witness :
    (∀ d ∈ [(400 : ℚ), 500], 0 ≤ d) ∧ ([(400 : ℚ), 500].sum < 1000) ∧
      (((scenarioA [400, 500]).takeDamage 30 false).1 = false ∧
        ((scenarioA [400, 500]).takeDamage 30 false).2.currentHealth = 70) :=
  ⟨by decide, by norm_num,
    claim_C5_invincibility_window [400, 500] (by decide) (by norm_num)⟩

/-! ### VelocityComponent (src/components/VelocityComponent.ts)

`limitSpeed` divides by `Math.sqrt(vx*vx + vy*vy)`, so this component is
embedded over `ℝ` (exact-real model of the JS float computation). -/

structure VelocityComponent where
  vx : ℝ
  vy : ℝ
  maxSpeed : ℝ
  friction : ℝ

/-- `getSpeed()`: the Euclidean magnitude `Math.sqrt(vx*vx + vy*vy)`. -/
noncomputable def VelocityComponent.getSpeed (v : VelocityComponent) : ℝ :=
  Real.sqrt (v.vx * v.vx + v.vy * v.vy)

/-- `limitSpeed()`: when the magnitude exceeds `maxSpeed`, rescale both
components by `maxSpeed / speed`. -/
noncomputable def VelocityComponent.limitSpeed (v : VelocityComponent) :
    VelocityComponent :=
  let speed := Real.sqrt (v.vx * v.vx + v.vy * v.vy)
  if v.maxSpeed < speed then
    { v with vx := v.vx / speed * v.maxSpeed, vy := v.vy / speed * v.maxSpeed }
  else v

/-- `setVelocity(vx, vy)`: overwrite both components, then `limitSpeed`. -/
noncomputable def VelocityComponent.setVelocity (v : VelocityComponent)
    (vx vy : ℝ) : VelocityComponent :=
  VelocityComponent.limitSpeed { v with vx := vx, vy := vy }

/-- `addVelocity(dvx, dvy)`: accumulate into both components, then
`limitSpeed`. -/
noncomputable def VelocityComponent.addVelocity (v : VelocityComponent)
    (dvx dvy : ℝ) : VelocityComponent :=
  VelocityComponent.limitSpeed { v with vx := v.vx + dvx, vy := v.vy + dvy }

lemma VelocityComponent.limitSpeed_maxSpeed (v : VelocityComponent) :
    v.limitSpeed.maxSpeed = v.maxSpeed := by
  simp only [VelocityComponent.limitSpeed]
  split <;> rfl

/-- Shared helper: with a nonnegative `maxSpeed`, `limitSpeed` caps the
magnitude at `maxSpeed`. -/
lemma VelocityComponent.getSpeed_limitSpeed_le (v : VelocityComponent)
    (hms : 0 ≤ v.maxSpeed) : v.limitSpeed.getSpeed ≤ v.maxSpeed := by
  have harg : 0 ≤ v.vx * v.vx + v.vy * v.vy :=
    add_nonneg (mul_self_nonneg _) (mul_self_nonneg _)
  simp only [VelocityComponent.limitSpeed]
  split
  · rename_i hgt
    set s := Real.sqrt (v.vx * v.vx + v.vy * v.vy) with hs
    have hspos : 0 < s := lt_of_le_of_lt hms hgt
    have hsne : s ≠ 0 := ne_of_gt hspos
    have hss : s * s = v.vx * v.vx + v.vy * v.vy := Real.mul_self_sqrt harg
    have hsum : v.vx / s * v.maxSpeed * (v.vx / s * v.maxSpeed) +
        v.vy / s * v.maxSpeed * (v.vy / s * v.maxSpeed) =
        v.maxSpeed * v.maxSpeed := by
      field_simp
      nlinarith [hss]
    show Real.sqrt _ ≤ v.maxSpeed
    rw [hsum]
    exact le_of_eq (Real.sqrt_mul_self hms)
  · rename_i hle
    push_neg at hle
    exact hle

/-- C9 counterexample: the claim quantifies over every prior state, but with a
negative `maxSpeed` the rescaling branch always fires and leaves a magnitude
of `|maxSpeed| > maxSpeed`: after `setVelocity(3, 4)` on a component whose
`maxSpeed` is `-1`, the magnitude is `1`, which exceeds `-1`. -/
theorem claim_C9_counterexample :
    ¬ ((VelocityComponent.setVelocity ⟨0, 0, -1, 0⟩ 3 4).getSpeed ≤
        (VelocityComponent.mk 0 0 (-1) 0).maxSpeed) := by
  have hsqrt : Real.sqrt ((3 : ℝ) * 3 + 4 * 4) = 5 := by
    rw [show (3 : ℝ) * 3 + 4 * 4 = 5 ^ 2 by norm_num]
    exact Real.sqrt_sq (by norm_num)
  have hbranch : VelocityComponent.setVelocity ⟨0, 0, -1, 0⟩ 3 4 =
      { vx := 3 / 5 * (-1), vy := 4 / 5 * (-1), maxSpeed := -1, friction := 0 } := by
    unfold VelocityComponent.setVelocity VelocityComponent.limitSpeed
    rw [if_pos]
    · simp only [hsqrt]
    · show (-1 : ℝ) < Real.sqrt _
      rw [hsqrt]
      norm_num
  rw [hbranch]
  unfold VelocityComponent.getSpeed
  have harg : (3 / 5 * (-1) : ℝ) * (3 / 5 * (-1)) + 4 / 5 * (-1) * (4 / 5 * (-1)) = 1 := by
    norm_num
  rw [harg, Real.sqrt_one]
  norm_num

/-- C9 (amended): restricted to a nonnegative `maxSpeed` (as every component
the game constructs has), the magnitude right after `setVelocity` or
`addVelocity` is at most `maxSpeed`; over exact reals the bound is exact, no
floating-point tolerance is needed. -/
theorem claim_C9_speed_clamped (v : VelocityComponent) (a b : ℝ)
    (hms : 0 ≤ v.maxSpeed) :
    (v.setVelocity a b).getSpeed ≤ v.maxSpeed ∧
      (v.addVelocity a b).getSpeed ≤ v.maxSpeed :=
  ⟨VelocityComponent.getSpeed_limitSpeed_le { v with vx := a, vy := b } hms,
    VelocityComponent.getSpeed_limitSpeed_le
      { v with vx := v.vx + a, vy := v.vy + b } hms⟩

/-- Witness for C9 (amended) at a concrete component with `maxSpeed = 1000`. -/
theorem claim_C9_witness :
    (0 : ℝ) ≤ (VelocityComponent.mk 0 0 1000 0).maxSpeed ∧
      ((VelocityComponent.mk 0 0 1000 0).setVelocity 3 4).getSpeed ≤
          (VelocityComponent.mk 0 0 1000 0).maxSpeed ∧
        ((VelocityComponent.mk 0 0 1000 0).addVelocity 3 4).getSpeed ≤
          (VelocityComponent.mk 0 0 1000 0).maxSpeed :=
  ⟨by norm_num,
    (claim_C9_speed_clamped (VelocityComponent.mk 0 0 1000 0) 3 4 (by norm_num)).1,
    (claim_C9_speed_clamped (VelocityComponent.mk 0 0 1000 0) 3 4 (by norm_num)).2⟩

/-! ### Entity component map (src/ecs/Entity.ts)

An entity's `components` is a JS `Map` keyed by the component constructor
name, embedded as an association list in insertion order (`Map.set` on an
existing key overwrites in place, keeping the key's position).  A component
is reduced to an identity plus whether it defines the optional `destroy`
release hook; every mutator returns, next to the new state, the list of
components whose `destroy` hook it invoked. -/

structure Comp where
  cid : Nat
  hasDestroy : Bool
deriving DecidableEq, Repr

/-- JS `Map.set`: overwrite in place if the key exists, else append. -/
def mapSet (m : List (String × Comp)) (key : String) (c : Comp) :
    List (String × Comp) :=
  match m with
  | [] => [(key, c)]
  | (k, c') :: rest =>
      if k = key then (key, c) :: rest else (k, c') :: mapSet rest key c

/-- JS `Map.get`. -/
def mapGet (m : List (String × Comp)) (key : String) : Option Comp :=
  match m with
  | [] => none
  | (k, c) :: rest => if k = key then some c else mapGet rest key

/-- JS `Map.delete`. -/
def mapDelete (m : List (String × Comp)) (key : String) :
    List (String × Comp) :=
  match m with
  | [] => []
  | (k, c) :: rest => if k = key then rest else (k, c) :: mapDelete rest key

structure GEntity where
  components : List (String × Comp)
deriving DecidableEq, Repr

/-- `Entity.addComponent`: `this.components.set(name, component)` and nothing
else — in particular the source invokes no `destroy` hook on a replaced
instance, so the returned hook-call list is empty. -/
def GEntity.addComponent (e : GEntity) (name : String) (c : Comp) :
    GEntity × List Comp :=
  ({ components := mapSet e.components name c }, [])

/-- `Entity.removeComponent`: look the kind up; when present, invoke its
optional `destroy` hook (`component.destroy?.()`) and delete the entry. -/
def GEntity.removeComponent (e : GEntity) (name : String) :
    GEntity × List Comp :=
  match mapGet e.components name with
  | some c =>
      ({ components := mapDelete e.components name },
        if c.hasDestroy then [c] else [])
  | none => (e, [])

lemma mapGet_mapSet_self (m : List (String × Comp)) (key : String) (c : Comp) :
    mapGet (mapSet m key c) key = some c := by
  induction m with
  | nil => simp [mapSet, mapGet]
  | cons p rest ih =>
      obtain ⟨k, c'⟩ := p
      by_cases hk : k = key
      · simp [mapSet, mapGet, hk]
      · simp [mapSet, mapGet, hk, ih]

lemma mapGet_mapSet_ne (m : List (String × Comp)) (key other : String)
    (c : Comp) (hne : other ≠ key) :
    mapGet (mapSet m key c) other = mapGet m other := by
  induction m with
  | nil => simp [mapSet, mapGet, hne, Ne.symm hne]
  | cons p rest ih =>
      obtain ⟨k, c'⟩ := p
      by_cases hk : k = key
      · subst hk
        simp [mapSet, mapGet, Ne.symm hne]
      · by_cases ho : k = other <;>
          simp [mapSet, mapGet, hk, ho, ih, hne, Ne.symm hne]

/-- C3 counterexample: an entity already holding a `HealthComponent` whose
prior instance owns a release hook; `addComponent` with a fresh
`HealthComponent` does replace the prior instance, but invokes no `destroy`
hook at all (the returned hook-call list is empty, not `[old]` as the claim
requires). -/
theorem claim_C3_counterexample :
    (GEntity.addComponent ⟨[("HealthComponent", ⟨1, true⟩)]⟩ "HealthComponent"
        ⟨2, true⟩).2 = [] ∧
      mapGet (GEntity.addComponent ⟨[("HealthComponent", ⟨1, true⟩)]⟩
          "HealthComponent" ⟨2, true⟩).1.components "HealthComponent" =
        some ⟨2, true⟩ := by
  constructor
  · rfl
  · rfl

/-- C3 (amended): `addComponent` on a kind the entity already holds replaces
the prior instance (lookups of that kind now yield the new component, all
other kinds are untouched), but it never invokes the prior instance's
`destroy` release hook — release happens only through `removeComponent` or
entity destruction. -/
theorem claim_C3_addComponent_replaces (e : GEntity) (name : String) (c : Comp) :
    mapGet (e.addComponent name c).1.components name = some c ∧
      (∀ other : String, other ≠ name →
        mapGet (e.addComponent name c).1.components other =
          mapGet e.components other) ∧
      (e.addComponent name c).2 = [] :=
  ⟨mapGet_mapSet_self e.components name c,
    fun other hne => mapGet_mapSet_ne e.components name other c hne,
    rfl⟩

/-- Witness for C3 (amended) at a concrete entity, kind and component. -/
theorem claim_C3_witness :
    mapGet (GEntity.addComponent ⟨[("TransformComponent", ⟨7, false⟩)]⟩
        "TransformComponent" ⟨9, true⟩).1.components "TransformComponent" =
      some ⟨9, true⟩ ∧
    ("SpriteComponent" ≠ "TransformComponent" →
      mapGet (GEntity.addComponent ⟨[("TransformComponent", ⟨7, false⟩)]⟩
          "TransformComponent" ⟨9, true⟩).1.components "SpriteComponent" =
        mapGet [("TransformComponent", ⟨7, false⟩)] "SpriteComponent") ∧
    (GEntity.addComponent ⟨[("TransformComponent", ⟨7, false⟩)]⟩
        "TransformComponent" ⟨9, true⟩).2 = [] :=
  ⟨(claim_C3_addComponent_replaces ⟨[("TransformComponent", ⟨7, false⟩)]⟩
      "TransformComponent" ⟨9, true⟩).1,
    fun h => (claim_C3_addComponent_replaces ⟨[("TransformComponent", ⟨7, false⟩)]⟩
      "TransformComponent" ⟨9, true⟩).2.1 "SpriteComponent" h,
    (claim_C3_addComponent_replaces ⟨[("TransformComponent", ⟨7, false⟩)]⟩
      "TransformComponent" ⟨9, true⟩).2.2⟩

/-! ### World entity registry (World.ts in the unnamed sources)

The registry slice of `World`: the live set `entities`, the two deferred
queues `entitiesToAdd` / `entitiesToRemove` (JS `Set`s, embedded as
duplicate-free-by-construction lists in insertion order), the id counter
(`Entity.nextId`, hoisted into the world state), and the per-entity component
kinds (each `Entity`'s component-map keys, flattened to pairs).  `update`'s
structural phase first admits every staged entity, then deletes every staged
removal (destroying its components); systems then run against that flushed
state and interact with the registry only through `createEntity` /
`removeEntity` / `addComponent` / `getEntitiesWith`, so an arbitrary
interleaving of the operations below over-approximates any system behaviour
inside a tick. -/

structure GWorld where
  nextId : Nat
  entities : List Nat
  entitiesToAdd : List Nat
  entitiesToRemove : List Nat
  comps : List (Nat × String)
deriving DecidableEq, Repr

/-- JS `Set.add`: a no-op when the element is already present. -/
def setAdd (l : List Nat) (x : Nat) : List Nat :=
  if x ∈ l then l else l ++ [x]

/-- `World.createEntity`: allocate `Entity.nextId++` and stage the entity on
the add queue; the id is returned to the caller at once. -/
def GWorld.createEntity (w : GWorld) : GWorld × Nat :=
  ({ w with nextId := w.nextId + 1, entitiesToAdd := setAdd w.entitiesToAdd w.nextId },
    w.nextId)

/-- `World.removeEntity`: stage the entity on the remove queue. -/
def GWorld.removeEntity (w : GWorld) (id : Nat) : GWorld :=
  { w with entitiesToRemove := setAdd w.entitiesToRemove id }

/-- `Entity.addComponent` seen from the registry: record that `id` now holds
kind `name`. -/
def GWorld.addComponent (w : GWorld) (id : Nat) (name : String) : GWorld :=
  { w with comps := (id, name) :: w.comps }

/-- `hasComponents` of `Entity`, flattened: `id` holds every kind in `kinds`. -/
def GWorld.hasComponents (w : GWorld) (id : Nat) (kinds : List String) : Bool :=
  kinds.all fun k => decide ((id, k) ∈ w.comps)

/-- `World.getEntitiesWith`: filter the live set by `hasComponents`. -/
def GWorld.getEntitiesWith (w : GWorld) (kinds : List String) : List Nat :=
  w.entities.filter fun id => w.hasComponents id kinds

/-- The structural phase of `World.update`: admit all staged additions into
the live set, then delete all staged removals, destroying their components;
both queues are cleared. -/
def GWorld.flush (w : GWorld) : GWorld :=
  let es := w.entitiesToAdd.foldl setAdd w.entities
  { w with
    entities := es.filter fun id => decide (id ∉ w.entitiesToRemove),
    comps := w.comps.filter fun p => decide (p.1 ∉ w.entitiesToRemove),
    entitiesToAdd := [],
    entitiesToRemove := [] }

/-- One registry interaction: the public `World` calls plus the tick
boundary's structural phase. -/
inductive WOp where
  | create
  | remove (id : Nat)
  | addComp (id : Nat) (name : String)
  | tick
deriving DecidableEq, Repr

def GWorld.applyOp (w : GWorld) : WOp → GWorld
  | .create => (w.createEntity).1
  | .remove id => w.removeEntity id
  | .addComp id name => w.addComponent id name
  | .tick => w.flush

def GWorld.applyOps (w : GWorld) (ops : List WOp) : GWorld :=
  ops.foldl GWorld.applyOp w

lemma mem_setAdd {l : List Nat} {x y : Nat} :
    y ∈ setAdd l x ↔ y ∈ l ∨ y = x := by
  unfold setAdd
  split
  · rename_i hx
    constructor
    · exact Or.inl
    · rintro (h | rfl)
      · exact h
      · exact hx
  · simp

lemma mem_foldl_setAdd (l : List Nat) :
    ∀ (init : List Nat) (y : Nat),
      y ∈ l.foldl setAdd init ↔ y ∈ init ∨ y ∈ l := by
  induction l with
  | nil => simp
  | cons a l ih =>
      intro init y
      rw [List.foldl_cons, ih, mem_setAdd]
      constructor
      · rintro ((h | rfl) | h)
        · exact Or.inl h
        · exact Or.inr (List.mem_cons_self _ _)
        · exact Or.inr (List.mem_cons_of_mem _ h)
      · rintro (h | h)
        · exact Or.inl (Or.inl h)
        · rcases List.mem_cons.mp h with rfl | h
          · exact Or.inl (Or.inr rfl)
          · exact Or.inr h

/-- The state of an entity that can never again become query-visible: not
live, id already consumed, and staged for removal whenever it is staged for
addition. -/
def NeverLive (e : Nat) (w : GWorld) : Prop :=
  e ∉ w.entities ∧ e < w.nextId ∧
    (e ∈ w.entitiesToAdd → e ∈ w.entitiesToRemove)

lemma NeverLive.applyOp {e : Nat} {w : GWorld} (h : NeverLive e w)
    (op : WOp) : NeverLive e (w.applyOp op) := by
  obtain ⟨hlive, hid, hq⟩ := h
  cases op with
  | create =>
      refine ⟨hlive, Nat.lt_succ_of_lt hid, fun hin => ?_⟩
      rcases mem_setAdd.mp hin with hin | rfl
      · exact hq hin
      · exact absurd hid (lt_irrefl _)
  | remove id =>
      exact ⟨hlive, hid, fun hin => mem_setAdd.mpr (Or.inl (hq hin))⟩
  | addComp id name => exact ⟨hlive, hid, hq⟩
  | tick =>
      refine ⟨?_, hid, fun hin => absurd hin (List.not_mem_nil e)⟩
      intro hin
      rw [GWorld.applyOp] at hin
      unfold GWorld.flush at hin
      simp only [List.mem_filter, decide_eq_true_eq] at hin
      obtain ⟨hmem, hnotrem⟩ := hin
      rcases (mem_foldl_setAdd _ _ _).mp hmem with hmem | hmem
      · exact hlive hmem
      · exact hnotrem (hq hmem)

lemma NeverLive.applyOps {e : Nat} (ops : List WOp) :
    ∀ {w : GWorld}, NeverLive e w → NeverLive e (w.applyOps ops) := by
  induction ops with
  | nil => intro w h; exact h
  | cons op ops ih =>
      intro w h
      exact ih (h.applyOp op)

lemma GWorld.getEntitiesWith_subset {w : GWorld} {kinds : List String}
    {id : Nat} (h : id ∈ w.getEntitiesWith kinds) : id ∈ w.entities :=
  (List.mem_filter.mp h).1

lemma GWorld.applyOp_entities_of_ne_tick {w : GWorld} {op : WOp}
    (h : op ≠ WOp.tick) : (w.applyOp op).entities = w.entities := by
  cases op with
  | create => rfl
  | remove id => rfl
  | addComp id name => rfl
  | tick => exact absurd rfl h

lemma GWorld.applyOp_nextId_le (w : GWorld) (op : WOp) :
    w.nextId ≤ (w.applyOp op).nextId := by
  cases op with
  | create => exact Nat.le_succ _
  | remove id => exact le_refl _
  | addComp id name => exact le_refl _
  | tick => exact le_refl _

lemma GWorld.applyOp_toRemove_mono {w : GWorld} {op : WOp} {x : Nat}
    (h : op ≠ WOp.tick) (hx : x ∈ w.entitiesToRemove) :
    x ∈ (w.applyOp op).entitiesToRemove := by
  cases op with
  | create => exact hx
  | remove id => exact mem_setAdd.mpr (Or.inl hx)
  | addComp id name => exact hx
  | tick => exact absurd rfl h

lemma GWorld.applyOps_nontick (ops : List WOp) :
    ∀ (w : GWorld), (∀ op ∈ ops, op ≠ WOp.tick) →
      (w.applyOps ops).entities = w.entities ∧
        w.nextId ≤ (w.applyOps ops).nextId ∧
        (∀ x ∈ w.entitiesToRemove, x ∈ (w.applyOps ops).entitiesToRemove) := by
  induction ops with
  | nil => exact fun w _ => ⟨rfl, le_refl _, fun x hx => hx⟩
  | cons op ops ih =>
      intro w hops
      have hop : op ≠ WOp.tick := hops op (List.mem_cons_self _ _)
      have hrest : ∀ o ∈ ops, o ≠ WOp.tick :=
        fun o ho => hops o (List.mem_cons_of_mem _ ho)
      obtain ⟨he, hn, hr⟩ := ih (w.applyOp op) hrest
      refine ⟨?_, le_trans (w.applyOp_nextId_le op) hn, fun x hx => ?_⟩
      · rw [GWorld.applyOps, List.foldl_cons, ← GWorld.applyOps, he,
          GWorld.applyOp_entities_of_ne_tick hop]
      · exact hr x (GWorld.applyOp_toRemove_mono hop hx)

/-- C6: an entity created and then removed before the next tick is invisible
to every `getEntitiesWith` query, at every point: while the pre-tick
operations (`mid`, all non-tick, one of which is the `removeEntity` call) are
running, and after every further operation sequence `ops` — ticks included —
from then on.  Fresh ids and the flush order (admit first, then delete) make
the staged-in-both-queues entity land outside the live set forever. -/
theorem claim_C6_removed_before_tick_invisible (w0 : GWorld) (mid : List WOp)
    (hfresh : w0.nextId ∉ w0.entities)
    (hmid : ∀ op ∈ mid, op ≠ WOp.tick)
    (hrem : WOp.remove (w0.createEntity).2 ∈ mid) :
    (∀ m1 m2 : List WOp, mid = m1 ++ m2 → ∀ kinds : List String,
        (w0.createEntity).2 ∉
          (((w0.createEntity).1.applyOps m1).getEntitiesWith kinds)) ∧
      (∀ ops : List WOp, ∀ kinds : List String,
        (w0.createEntity).2 ∉
          ((((w0.createEntity).1.applyOps mid).applyOps ops).getEntitiesWith kinds)) := by
  set e := (w0.createEntity).2 with he
  set w1 := (w0.createEntity).1 with hw1
  have hw1e : w1.entities = w0.entities := rfl
  have hnotin : e ∉ w1.entities := by
    rw [hw1e]
    exact hfresh
  constructor
  · intro m1 m2 hsplit kinds hmem
    have hm1 : ∀ op ∈ m1, op ≠ WOp.tick := by
      intro op hop
      exact hmid op (hsplit ▸ List.mem_append_left m2 hop)
    have := (GWorld.applyOps_nontick m1 w1 hm1).1
    exact hnotin (this ▸ GWorld.getEntitiesWith_subset hmem)
  · intro ops kinds hmem
    have hnl : NeverLive e (w1.applyOps mid) := by
      obtain ⟨m1, m2, hsplit⟩ := List.append_of_mem hrem
      have hm1 : ∀ op ∈ m1, op ≠ WOp.tick := by
        intro op hop
        exact hmid op (hsplit ▸ List.mem_append_left _ hop)
      have hm2 : ∀ op ∈ m2, op ≠ WOp.tick := by
        intro op hop
        exact hmid op
          (hsplit ▸ List.mem_append_right _ (List.mem_cons_of_mem _ hop))
      have hmidw : w1.applyOps mid =
          ((w1.applyOps m1).removeEntity e).applyOps m2 := by
        rw [hsplit, GWorld.applyOps, List.foldl_append, List.foldl_cons]
        rfl
      obtain ⟨he1, hn1, _⟩ := GWorld.applyOps_nontick m1 w1 hm1
      have hrm : e ∈ ((w1.applyOps m1).removeEntity e).entitiesToRemove :=
        mem_setAdd.mpr (Or.inr rfl)
      have hlt : e < ((w1.applyOps m1).removeEntity e).nextId := by
        have : e < w1.nextId := Nat.lt_succ_self _
        exact lt_of_lt_of_le this hn1
      obtain ⟨he2, hn2, hr2⟩ :=
        GWorld.applyOps_nontick m2 ((w1.applyOps m1).removeEntity e) hm2
      rw [hmidw]
      refine ⟨?_, ?_, fun _ => hr2 e hrm⟩
      · rw [he2]
        show e ∉ (w1.applyOps m1).entities
        rw [he1]
        exact hnotin
      · exact lt_of_lt_of_le hlt hn2
    have := (NeverLive.applyOps ops hnl).1
    exact this (GWorld.getEntitiesWith_subset hmem)

/-- Witness for C6: a fresh world; the entity is created, given a component,
removed, and the world then ticks twice while another entity is created. -/
theorem claim_C6_witness :
    ((GWorld.mk 0 [] [] [] []).nextId ∉ (GWorld.mk 0 [] [] [] []).entities) ∧
      (∀ op ∈ [WOp.addComp 0 "EnemyComponent", WOp.remove 0], op ≠ WOp.tick) ∧
      (WOp.remove ((GWorld.mk 0 [] [] [] []).createEntity).2 ∈
        [WOp.addComp 0 "EnemyComponent", WOp.remove 0]) ∧
      (∀ ops : List WOp, ∀ kinds : List String,
        ((GWorld.mk 0 [] [] [] []).createEntity).2 ∉
          (((((GWorld.mk 0 [] [] [] []).createEntity).1.applyOps
              [WOp.addComp 0 "EnemyComponent", WOp.remove 0]).applyOps
                ops).getEntitiesWith kinds)) :=
  ⟨by decide, by decide, by decide,
    (claim_C6_removed_before_tick_invisible (GWorld.mk 0 [] [] [] [])
        [WOp.addComp 0 "EnemyComponent", WOp.remove 0]
        (by decide) (by decide) (by decide)).2⟩

/-! ### World system dispatch (World.ts `update`, step 3)

The dispatch loop over the ordered system list: every system with
`enabled = true` has its `update` invoked inside a `try`/`catch`; a thrown
fault is logged via `console.error` and swallowed, and the
`system.setEnabled(false)` reaction is commented out in the source, so the
loop continues with the next system and the list (with its enabled flags) is
left untouched.  A system's `update` is embedded as a function from the
shared mutable state it acts on to `Except`, `Except.error` standing for a
thrown exception. -/

structure GSys (σ : Type) where
  name : String
  enabled : Bool
  run : σ → Except String σ

/-- The `console.error` line of the dispatch loop's catch block. -/
def sysErrMsg (name msg : String) : String :=
  "system " ++ name ++ " update error: " ++ msg

/-- Accumulated outcome of one dispatch pass: final state, log entries from
the catch block, and the names of the systems whose `update` was invoked. -/
structure RunResult (σ : Type) where
  state : σ
  log : List String
  attempted : List String

/-- One iteration of the dispatch loop. -/
def stepSystem {σ : Type} (r : RunResult σ) (sys : GSys σ) : RunResult σ :=
  if sys.enabled then
    match sys.run r.state with
    | Except.ok s' =>
        { r with state := s', attempted := r.attempted ++ [sys.name] }
    | Except.error e =>
        { r with log := r.log ++ [sysErrMsg sys.name e],
                 attempted := r.attempted ++ [sys.name] }
  else r

def runSystems {σ : Type} (systems : List (GSys σ)) (s : σ) : RunResult σ :=
  systems.foldl stepSystem ⟨s, [], []⟩

/-- The world slice relevant to dispatch: the ordered system list plus the
state the systems act on. -/
structure SysWorld (σ : Type) where
  systems : List (GSys σ)
  st : σ

/-- Step 3 of `World.update`: run the dispatch loop; the system list itself
is never modified by the loop (disabling on error is commented out). -/
def SysWorld.update {σ : Type} (w : SysWorld σ) :
    SysWorld σ × List String × List String :=
  let r := runSystems w.systems w.st
  ({ w with st := r.state }, r.log, r.attempted)

lemma foldl_stepSystem_attempted {σ : Type} (systems : List (GSys σ)) :
    ∀ r : RunResult σ,
      (systems.foldl stepSystem r).attempted =
        r.attempted ++ (systems.filter (fun s => s.enabled)).map GSys.name := by
  induction systems with
  | nil => intro r; simp
  | cons sys rest ih =>
      intro r
      rw [List.foldl_cons, ih]
      by_cases hen : sys.enabled
      · cases hrun : sys.run r.state <;>
          simp [stepSystem, hen, hrun, List.filter_cons]
      · simp [stepSystem, hen, List.filter_cons]

lemma stepSystem_log_extend {σ : Type} (r : RunResult σ) (sys : GSys σ) :
    ∃ l : List String, (stepSystem r sys).log = r.log ++ l := by
  by_cases hen : sys.enabled
  · cases hrun : sys.run r.state with
    | error e => exact ⟨[sysErrMsg sys.name e], by simp [stepSystem, hen, hrun]⟩
    | ok s' => exact ⟨[], by simp [stepSystem, hen, hrun]⟩
  · exact ⟨[], by simp [stepSystem, hen]⟩

lemma foldl_stepSystem_log_extend {σ : Type} (systems : List (GSys σ)) :
    ∀ r : RunResult σ, ∃ l : List String,
      (systems.foldl stepSystem r).log = r.log ++ l := by
  induction systems with
  | nil => intro r; exact ⟨[], by simp⟩
  | cons sys rest ih =>
      intro r
      obtain ⟨l0, hl0⟩ := stepSystem_log_extend r sys
      obtain ⟨l, hl⟩ := ih (stepSystem r sys)
      exact ⟨l0 ++ l, by rw [List.foldl_cons, hl, hl0, List.append_assoc]⟩

lemma runSystems_attempted {σ : Type} (systems : List (GSys σ)) (s : σ) :
    (runSystems systems s).attempted =
      (systems.filter (fun sys => sys.enabled)).map GSys.name := by
  rw [runSystems, foldl_stepSystem_attempted]
  rfl

/-- C7: when an enabled system `f`'s update throws on the state the systems
before it produced, the dispatch loop logs the fault (rather than
propagating it — the loop is a total function), still invokes every enabled
system after `f` in that same pass, leaves the system list (hence `f`'s
enabled flag) untouched, and therefore attempts `f` again on the next tick. -/
theorem claim_C7_fault_isolation {σ : Type} (w : SysWorld σ)
    (pre post : List (GSys σ)) (f : GSys σ) (e : String)
    (hsys : w.systems = pre ++ f :: post)
    (hen : f.enabled = true)
    (hthrow : f.run (runSystems pre w.st).state = Except.error e) :
    sysErrMsg f.name e ∈ (SysWorld.update w).2.1 ∧
      (∀ g ∈ post, g.enabled = true → g.name ∈ (SysWorld.update w).2.2) ∧
      (SysWorld.update w).1.systems = w.systems ∧
      f.name ∈ ((SysWorld.update w).1.update).2.2 := by
  have hattempt : (SysWorld.update w).2.2 =
      (w.systems.filter (fun sys => sys.enabled)).map GSys.name := by
    show (runSystems w.systems w.st).attempted = _
    exact runSystems_attempted w.systems w.st
  refine ⟨?_, ?_, rfl, ?_⟩
  · show sysErrMsg f.name e ∈ (runSystems w.systems w.st).log
    rw [hsys, runSystems, List.foldl_append, List.foldl_cons]
    have hmid : stepSystem ((pre.foldl stepSystem ⟨w.st, [], []⟩)) f =
        { pre.foldl stepSystem ⟨w.st, [], []⟩ with
          log := (pre.foldl stepSystem ⟨w.st, [], []⟩).log ++ [sysErrMsg f.name e],
          attempted := (pre.foldl stepSystem ⟨w.st, [], []⟩).attempted ++ [f.name] } := by
      have : (pre.foldl stepSystem (⟨w.st, [], []⟩ : RunResult σ)).state =
          (runSystems pre w.st).state := rfl
      simp only [stepSystem, hen, if_true, this, hthrow]
    rw [hmid]
    obtain ⟨l, hl⟩ := foldl_stepSystem_log_extend post _
    rw [hl]
    simp
  · intro g hg hgen
    rw [hattempt, hsys]
    simp only [List.filter_append, List.filter_cons, hen, List.map_append]
    refine List.mem_append_right _ ?_
    simp only [if_true]
    refine List.mem_cons_of_mem _ ?_
    exact List.mem_map_of_mem GSys.name (List.mem_filter.mpr ⟨hg, hgen⟩)
  · have : ((SysWorld.update w).1.update).2.2 =
        ((SysWorld.update w).1.systems.filter (fun sys => sys.enabled)).map
          GSys.name := by
      show (runSystems _ _).attempted = _
      exact runSystems_attempted _ _
    rw [this]
    show f.name ∈ (w.systems.filter (fun sys => sys.enabled)).map GSys.name
    rw [hsys]
    simp only [List.filter_append, List.filter_cons, hen, List.map_append]
    refine List.mem_append_right _ ?_
    simp only [if_true]
    exact List.mem_cons_self _ _

/-- A concrete system whose update always throws (for the C7 witness). -/
def sysBoom : GSys Nat :=
  { name := "CollisionSystem", enabled := true, run := fun _ => Except.error "boom" }

/-- A concrete well-behaved system (for the C7 witness). -/
def sysNext : GSys Nat :=
  { name := "ProjectileSystem", enabled := true, run := fun n => Except.ok (n + 1) }

/-- A concrete two-system world (for the C7 witness). -/
def demoSysWorld : SysWorld Nat := { systems := [sysBoom, sysNext], st := 0 }

/-- Witness for C7: a two-system world over `Nat` state whose first enabled
system always throws and whose second increments the state. -/
theorem claim_C7_witness :
    (demoSysWorld.systems = [] ++ sysBoom :: [sysNext]) ∧
      (sysBoom.enabled = true) ∧
      (sysBoom.run (runSystems ([] : List (GSys Nat)) demoSysWorld.st).state =
        Except.error "boom") ∧
      (sysErrMsg sysBoom.name "boom" ∈ (SysWorld.update demoSysWorld).2.1 ∧
        (∀ g ∈ [sysNext], g.enabled = true →
          g.name ∈ (SysWorld.update demoSysWorld).2.2) ∧
        (SysWorld.update demoSysWorld).1.systems = demoSysWorld.systems ∧
        sysBoom.name ∈ (((SysWorld.update demoSysWorld).1).update).2.2) :=
  ⟨rfl, rfl, rfl,
    claim_C7_fault_isolation demoSysWorld [] [sysNext] sysBoom "boom" rfl rfl rfl⟩

/-! ### CollisionSystem (CollisionSystem.ts in the unnamed sources)

`checkProjectileEnemyCollisions` and `checkAttackCollisions`, over the
component data they touch: each enemy is its transform position, its
`HealthComponent` and its `EnemyComponent.isKnockbackActive` flag; each
projectile is its position and `ProjectileComponent.damage`.  The source
compares `Phaser.Math.Distance.Between(x1,y1,x2,y2)` — a Euclidean square
root — against a positive radius; the embedding uses the squared comparison,
proved equivalent below (`distLt_iff_sqrt_lt` / `distLe_iff_sqrt_le`).  The
knockback velocity written by `applyEnemyKnockback` (`cos`/`sin` of the
source→target angle times the force, 150 for projectiles and 200 for melee)
only touches `VelocityComponent` fields no claim mentions; the model keeps
the `setKnockback(true)` flag write.  Events are collected in emission
order. -/

structure CEnemy where
  eid : Nat
  x : ℚ
  y : ℚ
  health : HealthComponent
  isKnockbackActive : Bool
deriving DecidableEq, Repr

structure CProjectile where
  pid : Nat
  x : ℚ
  y : ℚ
  damage : ℚ
deriving DecidableEq, Repr

inductive GameEvent where
  | enemyDeath (eid : Nat)
  | playerDeath (eid : Nat)
deriving DecidableEq, Repr

/-- `Phaser.Math.Distance.Between(x1,y1,x2,y2) < r`, embedded squared. -/
def distLt (x1 y1 x2 y2 r : ℚ) : Bool :=
  decide ((x2 - x1) * (x2 - x1) + (y2 - y1) * (y2 - y1) < r * r)

/-- `Phaser.Math.Distance.Between(x1,y1,x2,y2) <= r`, embedded squared. -/
def distLe (x1 y1 x2 y2 r : ℚ) : Bool :=
  decide ((x2 - x1) * (x2 - x1) + (y2 - y1) * (y2 - y1) ≤ r * r)

/-- For a positive radius the squared test is the source's `sqrt` test. -/
lemma distLt_iff_sqrt_lt (x1 y1 x2 y2 r : ℚ) (hr : 0 < r) :
    distLt x1 y1 x2 y2 r = true ↔
      Real.sqrt (((x2 : ℝ) - x1) * ((x2 : ℝ) - x1) +
        ((y2 : ℝ) - y1) * ((y2 : ℝ) - y1)) < (r : ℝ) := by
  have hrR : (0 : ℝ) < (r : ℝ) := by exact_mod_cast hr
  rw [Real.sqrt_lt' hrR, pow_two]
  unfold distLt
  rw [decide_eq_true_eq]
  exact_mod_cast Iff.rfl

/-- For a nonnegative radius the squared test is the source's `sqrt` test. -/
lemma distLe_iff_sqrt_le (x1 y1 x2 y2 r : ℚ) (hr : 0 ≤ r) :
    distLe x1 y1 x2 y2 r = true ↔
      Real.sqrt (((x2 : ℝ) - x1) * ((x2 : ℝ) - x1) +
        ((y2 : ℝ) - y1) * ((y2 : ℝ) - y1)) ≤ (r : ℝ) := by
  have hrR : (0 : ℝ) ≤ (r : ℝ) := by exact_mod_cast hr
  rw [Real.sqrt_le_left hrR, pow_two]
  unfold distLe
  rw [decide_eq_true_eq]
  exact_mod_cast Iff.rfl

/-- The per-enemy effect of a projectile or melee hit:
`enemyHealth.takeDamage(damage, true)` with the returned boolean ignored,
plus `applyEnemyKnockback`'s `enemyComponent.setKnockback(true)`. -/
def enemyTakeHit (damage : ℚ) (e : CEnemy) : CEnemy :=
  { e with health := (e.health.takeDamage damage true).2, isKnockbackActive := true }

/-- The post-hit death check: `if (!enemyHealth.isAlive()) emit('enemy-death')`. -/
def deathEvents (e : CEnemy) : List GameEvent :=
  if e.health.isAlive then [] else [GameEvent.enemyDeath e.eid]

/-- The inner loop of `checkProjectileEnemyCollisions`: walk the enemies in
iteration order; on the first enemy within radius 20, hit it, collect its
death event, and `break`. -/
def projectileHitFirst (p : CProjectile) :
    List CEnemy → Option (List CEnemy × List GameEvent)
  | [] => none
  | e :: es =>
      if distLt p.x p.y e.x e.y 20 then
        let hit := enemyTakeHit p.damage e
        some (hit :: es, deathEvents hit)
      else
        match projectileHitFirst p es with
        | some (es', evs) => some (e :: es', evs)
        | none => none

structure ProjScanResult where
  enemies : List CEnemy
  projectilesToRemove : List Nat
  events : List GameEvent
deriving DecidableEq, Repr

/-- The outer loop of `checkProjectileEnemyCollisions`: walk the projectiles
in iteration order; when one hits (`hitEnemy = true`), push it on
`projectilesToRemove` and `break` out of the projectile loop as well — the
source breaks the outer loop after the first hit.  Projectiles are removed
from the world only after the scan, from the collected batch. -/
def checkProjectileEnemyCollisions :
    List CProjectile → List CEnemy → ProjScanResult
  | [], es => { enemies := es, projectilesToRemove := [], events := [] }
  | p :: ps, es =>
      match projectileHitFirst p es with
      | some (es', evs) =>
          { enemies := es', projectilesToRemove := [p.pid], events := evs }
      | none => checkProjectileEnemyCollisions ps es

structure AttackResult where
  enemies : List CEnemy
  hitEnemies : List Nat
  events : List GameEvent
deriving DecidableEq, Repr

/-- `checkAttackCollisions(attackX, attackY, range, damage)`: every enemy
within `range` (inclusive) is hit — damage with `ignoreInvincible = true`
(return value ignored), knockback, the enemy pushed onto the returned hit
list, and an `enemy-death` emission whenever the enemy is not alive after
the hit.  No break: the scan always visits every enemy. -/
def checkAttackCollisions (attackX attackY range damage : ℚ) :
    List CEnemy → AttackResult
  | [] => { enemies := [], hitEnemies := [], events := [] }
  | e :: es =>
      let rest := checkAttackCollisions attackX attackY range damage es
      if distLe attackX attackY e.x e.y range then
        let hit := enemyTakeHit damage e
        { enemies := hit :: rest.enemies,
          hitEnemies := e.eid :: rest.hitEnemies,
          events := deathEvents hit ++ rest.events }
      else
        { enemies := e :: rest.enemies,
          hitEnemies := rest.hitEnemies,
          events := rest.events }

lemma projectileHitFirst_none (p : CProjectile) (es : List CEnemy)
    (h : ∀ x ∈ es, distLt p.x p.y x.x x.y 20 = false) :
    projectileHitFirst p es = none := by
  induction es with
  | nil => rfl
  | cons e es ih =>
      rw [projectileHitFirst, if_neg]
      · rw [ih fun x hx => h x (List.mem_cons_of_mem _ hx)]
      · simp [h e (List.mem_cons_self _ _)]

lemma projectileHitFirst_split (p : CProjectile) (pre post : List CEnemy)
    (e : CEnemy)
    (hpre : ∀ x ∈ pre, distLt p.x p.y x.x x.y 20 = false)
    (hhit : distLt p.x p.y e.x e.y 20 = true) :
    projectileHitFirst p (pre ++ e :: post) =
      some (pre ++ enemyTakeHit p.damage e :: post,
        deathEvents (enemyTakeHit p.damage e)) := by
  induction pre with
  | nil => simp [projectileHitFirst, hhit]
  | cons a pre ih =>
      rw [List.cons_append, projectileHitFirst, if_neg]
      · rw [ih fun x hx => hpre x (List.mem_cons_of_mem _ hx)]
        rfl
      · simp [hpre a (List.mem_cons_self _ _)]


/-- The enemy of C1's counterexample. -/
def exEnemyC1 : CEnemy :=
  { eid := 1, x := 0, y := 0, health := HealthComponent.mkHealth 100,
    isKnockbackActive := false }

/-- First projectile of C1's counterexample, 5 units from the enemy. -/
def exProjA : CProjectile := { pid := 10, x := 5, y := 0, damage := 30 }

/-- Second projectile of C1's counterexample, also 5 units from the enemy. -/
def exProjB : CProjectile := { pid := 11, x := 0, y := 5, damage := 30 }

/-- C1 counterexample: two live projectiles, both within radius 20 of the
enemy.  The claim says the scan continues past the first hit so the second
projectile also hits that tick; in the source, `if (hitEnemy) break` exits
the outer projectile loop, so only the first projectile is batched and the
enemy takes one hit (health 70, not 40). -/
theorem claim_C1_counterexample :
    distLt exProjB.x exProjB.y exEnemyC1.x exEnemyC1.y 20 = true ∧
      (checkProjectileEnemyCollisions [exProjA, exProjB]
          [exEnemyC1]).projectilesToRemove = [10] ∧
      (checkProjectileEnemyCollisions [exProjA, exProjB]
          [exEnemyC1]).enemies.map (fun e => e.health.currentHealth) = [70] := by
  refine ⟨by norm_num [distLt, exProjB, exEnemyC1], ?_, ?_⟩ <;>
    norm_num [checkProjectileEnemyCollisions, projectileHitFirst, distLt,
      enemyTakeHit, deathEvents, HealthComponent.takeDamage,
      HealthComponent.isAlive, HealthComponent.mkHealth, exEnemyC1, exProjA,
      exProjB, max_def]

/-- C1 (amended): in a `checkProjectileEnemyCollisions` tick, once the first
projectile within radius 20 of some enemy is found (`ps1` all miss, `p` hits
the first in-radius enemy `e`), that projectile damages only `e`
(`ignoreInvincible = true`), is collected into the batch for removal after
the scan — but the scan then stops: the batch is exactly `[p.pid]` and the
remaining projectiles `ps2` are never examined, so a second live projectile
within radius of an enemy does not hit that tick. -/
theorem claim_C1_single_projectile_hit (ps1 ps2 : List CProjectile)
    (p : CProjectile) (pre post : List CEnemy) (e : CEnemy)
    (hmiss : ∀ q ∈ ps1, ∀ x ∈ pre ++ e :: post,
      distLt q.x q.y x.x x.y 20 = false)
    (hpre : ∀ x ∈ pre, distLt p.x p.y x.x x.y 20 = false)
    (hhit : distLt p.x p.y e.x e.y 20 = true) :
    checkProjectileEnemyCollisions (ps1 ++ p :: ps2) (pre ++ e :: post) =
      { enemies := pre ++ enemyTakeHit p.damage e :: post,
        projectilesToRemove := [p.pid],
        events := deathEvents (enemyTakeHit p.damage e) } := by
  induction ps1 with
  | nil =>
      rw [List.nil_append, checkProjectileEnemyCollisions,
        projectileHitFirst_split p pre post e hpre hhit]
  | cons q ps1 ih =>
      rw [List.cons_append, checkProjectileEnemyCollisions,
        projectileHitFirst_none q _ (hmiss q (List.mem_cons_self _ _))]
      exact ih fun q' hq' => hmiss q' (List.mem_cons_of_mem _ hq')

/-- Witness for C1 (amended): the single-projectile, single-enemy instance. -/
theorem claim_C1_witness :
    distLt exProjA.x exProjA.y exEnemyC1.x exEnemyC1.y 20 = true ∧
      checkProjectileEnemyCollisions ([] ++ exProjA :: [exProjB])
          ([] ++ exEnemyC1 :: []) =
        { enemies := [] ++ enemyTakeHit exProjA.damage exEnemyC1 :: [],
          projectilesToRemove := [exProjA.pid],
          events := deathEvents (enemyTakeHit exProjA.damage exEnemyC1) } :=
  ⟨by norm_num [distLt, exProjA, exEnemyC1],
    claim_C1_single_projectile_hit [] [exProjB] exProjA [] [] exEnemyC1
      (by simp) (by simp)
      (by norm_num [distLt, exProjA, exEnemyC1])⟩

lemma checkAttackCollisions_split (attackX attackY range damage : ℚ)
    (post : List CEnemy) (e : CEnemy)
    (hin : distLe attackX attackY e.x e.y range = true) :
    ∀ pre : List CEnemy,
      (checkAttackCollisions attackX attackY range damage
          (pre ++ e :: post)).enemies.get? pre.length =
        some (enemyTakeHit damage e) ∧
      (∀ ev ∈ deathEvents (enemyTakeHit damage e),
        ev ∈ (checkAttackCollisions attackX attackY range damage
          (pre ++ e :: post)).events) := by
  intro pre
  induction pre with
  | nil =>
      rw [List.nil_append, checkAttackCollisions]
      simp only [hin, if_true]
      exact ⟨rfl, fun ev hev => List.mem_append_left _ hev⟩
  | cons a pre ih =>
      rw [List.cons_append, checkAttackCollisions]
      obtain ⟨hget, hev⟩ := ih
      by_cases ha : distLe attackX attackY a.x a.y range = true
      · simp only [ha, if_true]
        exact ⟨by simpa using hget,
          fun ev h => List.mem_append_right _ (hev ev h)⟩
      · simp only [ha, if_false, Bool.false_eq_true]
        exact ⟨by simpa using hget, hev⟩

/-- The enemy of C2's counterexample: 50 max health, about to be killed by a
single 50-damage melee hit. -/
def exEnemyC2 : CEnemy :=
  { eid := 1, x := 0, y := 0, health := HealthComponent.mkHealth 50,
    isKnockbackActive := false }

/-- C2 counterexample: the first `checkAttackCollisions(0, 0, 50, 50)` call
kills the enemy (health exactly 0, `isDead` now true) and emits one
`enemy-death`; a second identical call on the resulting enemy list — the
enemy is still query-visible since world removal is deferred — is a damage
no-op, yet emits `enemy-death` again, because the source emits on
`!isAlive()` after every in-range hit instead of on the death transition. -/
theorem claim_C2_counterexample :
    ((checkAttackCollisions 0 0 50 50 [exEnemyC2]).enemies.map
        (fun x => x.health.isDead)) = [true] ∧
      (checkAttackCollisions 0 0 50 50 [exEnemyC2]).events =
        [GameEvent.enemyDeath 1] ∧
      (checkAttackCollisions 0 0 50 50
          (checkAttackCollisions 0 0 50 50 [exEnemyC2]).enemies).events =
        [GameEvent.enemyDeath 1] := by
  refine ⟨?_, ?_, ?_⟩ <;>
    norm_num [checkAttackCollisions, distLe, enemyTakeHit, deathEvents,
      HealthComponent.takeDamage, HealthComponent.isAlive,
      HealthComponent.mkHealth, exEnemyC2, max_def]

/-- C2 (amended): for an enemy within range of a `checkAttackCollisions`
call, the hit result replaces it at its position; when the hit leaves it
dead, an `enemy-death` event for it is emitted in that call — but the
emission is keyed on `!isAlive()` after each hit rather than on the death
transition (the `takeDamage` return value is ignored), so a hit on an enemy
whose `isDead` is already true leaves its health unchanged yet emits a
further `enemy-death` event.  Within a single `checkProjectileEnemyCollisions`
tick a second projectile never reaches the enemy anyway, because the scan
stops after the first hit (C1). -/
theorem claim_C2_death_event_reemitted (attackX attackY range damage : ℚ)
    (pre post : List CEnemy) (e : CEnemy)
    (hin : distLe attackX attackY e.x e.y range = true) :
    (checkAttackCollisions attackX attackY range damage
        (pre ++ e :: post)).enemies.get? pre.length =
      some (enemyTakeHit damage e) ∧
      ((enemyTakeHit damage e).health.isDead = true →
        GameEvent.enemyDeath e.eid ∈
          (checkAttackCollisions attackX attackY range damage
            (pre ++ e :: post)).events) ∧
      (e.health.isDead = true → (enemyTakeHit damage e).health = e.health) := by
  obtain ⟨hget, hev⟩ :=
    checkAttackCollisions_split attackX attackY range damage post e hin pre
  refine ⟨hget, fun hdead => ?_, fun hdead => ?_⟩
  · refine hev _ ?_
    have heid : (enemyTakeHit damage e).eid = e.eid := rfl
    simp [deathEvents, HealthComponent.isAlive, hdead, heid]
  · show (e.health.takeDamage damage true).2 = e.health
    rw [e.health.takeDamage_of_dead damage true hdead]

/-- An already-dead enemy still present in the enemy list (for the C2
witness). -/
def exDeadEnemy : CEnemy :=
  { eid := 2, x := 0, y := 0,
    health := { currentHealth := 0, maxHealth := 50, isInvincible := false,
                invincibleTime := 0, isDead := true },
    isKnockbackActive := true }

/-- Witness for C2 (amended): a melee swing at an already-dead enemy that is
still in the enemy list. -/
theorem claim_C2_witness :
    distLe 0 0 exDeadEnemy.x exDeadEnemy.y 50 = true ∧
      ((checkAttackCollisions 0 0 50 50 ([] ++ exDeadEnemy :: [])).enemies.get? 0 =
          some (enemyTakeHit 50 exDeadEnemy) ∧
        ((enemyTakeHit 50 exDeadEnemy).health.isDead = true →
          GameEvent.enemyDeath exDeadEnemy.eid ∈
            (checkAttackCollisions 0 0 50 50 ([] ++ exDeadEnemy :: [])).events) ∧
        (exDeadEnemy.health.isDead = true →
          (enemyTakeHit 50 exDeadEnemy).health = exDeadEnemy.health)) :=
  ⟨by norm_num [distLe, exDeadEnemy],
    claim_C2_death_event_reemitted 0 0 50 50 [] [] exDeadEnemy
      (by norm_num [distLe, exDeadEnemy])⟩

/-! ### ProjectileSystem (ProjectileSystem.ts in the unnamed sources) and
ProjectileComponent (src/components/ProjectileComponent.ts)

Each projectile entity is its id, its transform position and its
`ProjectileComponent` (damage, elapsed lifetime, maximum lifetime).  Every
tick the system calls `projectileComponent.update(deltaTime)` (lifetime
accumulation), then requests `world.removeEntity` — a deferred removal —
when `isExpired()` (`lifetime >= maxLifetime`) or the position left the full
`800×600` bounds rectangle (`PROJECTILE_BOUNDS`, bounds inclusive). -/

structure PEnt where
  pid : Nat
  x : ℚ
  y : ℚ
  damage : ℚ
  lifetime : ℚ
  maxLifetime : ℚ
deriving DecidableEq, Repr

/-- `ProjectileComponent.update(deltaTime)`: `lifetime += deltaTime`. -/
def pcUpdate (deltaTime : ℚ) (p : PEnt) : PEnt :=
  { p with lifetime := p.lifetime + deltaTime }

/-- `ProjectileComponent.isExpired()`: `lifetime >= maxLifetime`. -/
def PEnt.isExpired (p : PEnt) : Bool :=
  decide (p.maxLifetime ≤ p.lifetime)

/-- The `isOutOfBounds` check against `PROJECTILE_BOUNDS`
(`minX = 0, maxX = 800, minY = 0, maxY = 600`). -/
def PEnt.isOutOfBounds (p : PEnt) : Bool :=
  decide (p.x < 0) || decide (800 < p.x) || decide (p.y < 0) || decide (600 < p.y)

/-- One `ProjectileSystem.update(deltaTime)` pass: age every projectile, then
collect the deferred `world.removeEntity` requests, in iteration order. -/
def projectileSystemUpdate (deltaTime : ℚ) :
    List PEnt → List PEnt × List Nat
  | [] => ([], [])
  | p :: ps =>
      let p' := pcUpdate deltaTime p
      let rest := projectileSystemUpdate deltaTime ps
      (p' :: rest.1,
        if p'.isExpired || p'.isOutOfBounds then p'.pid :: rest.2 else rest.2)

/-- A run of ticks: thread the aged projectile list through and accumulate
every removal request (world removal is deferred, so the projectile stays in
the list for the model's purposes). -/
def projectileTicks : List ℚ → List PEnt → List PEnt × List Nat
  | [], ps => (ps, [])
  | dt :: dts, ps =>
      ((projectileTicks dts (projectileSystemUpdate dt ps).1).1,
        (projectileSystemUpdate dt ps).2 ++
          (projectileTicks dts (projectileSystemUpdate dt ps).1).2)

lemma projectileSystemUpdate_spec (deltaTime : ℚ) (ps : List PEnt) :
    projectileSystemUpdate deltaTime ps =
      (ps.map (pcUpdate deltaTime),
        (((ps.map (pcUpdate deltaTime)).filter
          (fun p => p.isExpired || p.isOutOfBounds)).map PEnt.pid)) := by
  induction ps with
  | nil => rfl
  | cons p ps ih =>
      rw [projectileSystemUpdate, ih]
      by_cases hflag :
          ((pcUpdate deltaTime p).isExpired || (pcUpdate deltaTime p).isOutOfBounds) = true
      · simp [hflag, List.filter_cons]
      · simp only [Bool.not_eq_true] at hflag
        simp [hflag, List.filter_cons]

lemma pcUpdate_pid (deltaTime : ℚ) (p : PEnt) :
    (pcUpdate deltaTime p).pid = p.pid := rfl

lemma projectileTicks_expired (dts : List ℚ) :
    ∀ q : PEnt, dts ≠ [] → q.maxLifetime ≤ q.lifetime + dts.sum →
      q.pid ∈ (projectileTicks dts [q]).2 := by
  induction dts with
  | nil => intro q h _; exact absurd rfl h
  | cons d rest ih =>
      intro q _ hsum
      cases rest with
      | nil =>
          have hexp : (pcUpdate d q).isExpired = true := by
            simp only [PEnt.isExpired, pcUpdate, decide_eq_true_eq]
            simpa using hsum
          show q.pid ∈ (projectileSystemUpdate d [q]).2 ++ _
          refine List.mem_append_left _ ?_
          show q.pid ∈
            if ((pcUpdate d q).isExpired || (pcUpdate d q).isOutOfBounds) = true
            then (pcUpdate d q).pid :: ([] : List Nat) else []
          rw [if_pos (by simp [hexp]), pcUpdate_pid]
          exact List.mem_cons_self _ _
      | cons r rs =>
          have hmem := ih (pcUpdate d q) (by simp) (by
            show (pcUpdate d q).maxLifetime ≤
              (pcUpdate d q).lifetime + (r :: rs).sum
            show q.maxLifetime ≤ q.lifetime + d + (r :: rs).sum
            rw [List.sum_cons] at hsum
            linarith)
          show q.pid ∈ (projectileSystemUpdate d [q]).2 ++
            (projectileTicks (r :: rs) (projectileSystemUpdate d [q]).1).2
          refine List.mem_append_right _ ?_
          have h1 : (projectileSystemUpdate d [q]).1 = [pcUpdate d q] := rfl
          rw [h1]
          simpa using hmem

/-- C8: each `ProjectileSystem` tick adds `deltaTime` to every projectile's
elapsed lifetime, and requests a deferred world removal for a projectile
exactly when its new lifetime has reached `maxLifetime` or its position lies
strictly outside the full `800×600` rectangle — each condition alone
sufficient; consequently a projectile whose `maxLifetime` is covered by the
tick deltas seen so far (e.g. `maxLifetime = 3000` after ticks summing to
`≥ 3000`) is removed even if it never collides and never leaves the field. -/
theorem claim_C8_projectile_lifecycle (deltaTime : ℚ) (ps : List PEnt)
    (hnd : (ps.map PEnt.pid).Nodup) :
    ((projectileSystemUpdate deltaTime ps).1.map (fun p => p.lifetime) =
        ps.map (fun p => p.lifetime + deltaTime)) ∧
      (∀ p ∈ ps, (p.pid ∈ (projectileSystemUpdate deltaTime ps).2 ↔
        (p.maxLifetime ≤ p.lifetime + deltaTime ∨
          p.x < 0 ∨ 800 < p.x ∨ p.y < 0 ∨ 600 < p.y))) ∧
      (∀ (dts : List ℚ) (q : PEnt), dts ≠ [] →
        q.maxLifetime ≤ q.lifetime + dts.sum →
        q.pid ∈ (projectileTicks dts [q]).2) := by
  refine ⟨?_, ?_, fun dts q hne hsum => projectileTicks_expired dts q hne hsum⟩
  · rw [projectileSystemUpdate_spec]
    simp [pcUpdate]
  · intro p hp
    rw [projectileSystemUpdate_spec]
    have hcond : ((pcUpdate deltaTime p).isExpired ||
        (pcUpdate deltaTime p).isOutOfBounds) = true ↔
        (p.maxLifetime ≤ p.lifetime + deltaTime ∨
          p.x < 0 ∨ 800 < p.x ∨ p.y < 0 ∨ 600 < p.y) := by
      simp [PEnt.isExpired, PEnt.isOutOfBounds, pcUpdate, or_assoc]
    rw [← hcond]
    constructor
    · intro hmem
      obtain ⟨q', hq'mem, hq'pid⟩ := List.mem_map.mp hmem
      obtain ⟨hq'f, hq'flag⟩ := List.mem_filter.mp hq'mem
      obtain ⟨p', hp'mem, hp'eq⟩ := List.mem_map.mp hq'f
      have hinj := List.inj_on_of_nodup_map hnd
      have hpids : p'.pid = p.pid := by
        rw [← hq'pid, ← hp'eq, pcUpdate_pid]
      have hpp : p' = p := hinj hp'mem hp hpids
      rw [← hp'eq, hpp] at hq'flag
      exact hq'flag
    · intro hflag
      refine List.mem_map.mpr ⟨pcUpdate deltaTime p, ?_, pcUpdate_pid deltaTime p⟩
      exact List.mem_filter.mpr ⟨List.mem_map.mpr ⟨p, hp, rfl⟩, hflag⟩

/-- Witness for C8: one 1000 ms tick on a fresh mid-field projectile, and the
Scenario D run of ticks summing to 3000 ms on a `maxLifetime = 3000`
projectile. -/
theorem claim_C8_witness :
    (([PEnt.mk 1 400 300 30 0 3000].map PEnt.pid).Nodup) ∧
      (((projectileSystemUpdate 1000 [PEnt.mk 1 400 300 30 0 3000]).1.map
          (fun p => p.lifetime) =
        [PEnt.mk 1 400 300 30 0 3000].map (fun p => p.lifetime + 1000)) ∧
      (∀ p ∈ [PEnt.mk 1 400 300 30 0 3000],
        (p.pid ∈ (projectileSystemUpdate 1000 [PEnt.mk 1 400 300 30 0 3000]).2 ↔
          (p.maxLifetime ≤ p.lifetime + 1000 ∨
            p.x < 0 ∨ 800 < p.x ∨ p.y < 0 ∨ 600 < p.y))) ∧
      (∀ (dts : List ℚ) (q : PEnt), dts ≠ [] →
        q.maxLifetime ≤ q.lifetime + dts.sum →
        q.pid ∈ (projectileTicks dts [q]).2)) :=
  ⟨by simp,
    claim_C8_projectile_lifecycle 1000 [PEnt.mk 1 400 300 30 0 3000] (by simp)⟩

end Game
